import Mathlib

/-!
Verification of the inode subsystem of a Pintos project-4 filesystem
(`src/filesys/inode.c`).  The data model, the offset translator, the
growth engine, the read/write engine and the in-memory inode lifecycle
are embedded as executable Lean definitions; the Chain Allocator ("FAT")
and the block device, which are external collaborators whose sources are
not part of the inode module, are modelled from the specification.

Conventions of the embedding:
- `off_t` values (lengths, offsets, sizes) are modelled as `Nat` wherever
  the surrounding claims restrict them to be non-negative; the one loop
  whose control flow genuinely drives a signed value negative
  (the allocation loop of `inode_create`) uses `Int`.
- Truncated `Nat` subtraction agrees with the C `int` arithmetic at every
  use site: a negative C intermediate value occurs only in the
  `chunk_size <= 0` break tests, where the truncated value `0` takes the
  same branch.
- Device sectors hold either raw byte content (a function from byte index
  to byte value) or one serialized on-disk inode record.
- `malloc` of the in-memory bounce buffer is treated as infallible, and
  device I/O as infallible, consistent with the specification's error
  model (all caller-visible failure is allocation-driven).
-/

namespace InodeFS

/-- Sector size in bytes (`DISK_SECTOR_SIZE` from `devices/disk.h`). -/
def DISK_SECTOR_SIZE : Nat := 512

/-- Modelled from the spec: `SECTORS_PER_CLUSTER`, the Chain Allocator's
unit granularity, comes from `filesys/fat.h`, which is not part of the
inode sources.  The repository's allocator uses one device sector per
allocation unit: both the creation loop and the growth loop of
`inode.c` advance exactly one sector (`DISK_SECTOR_SIZE` bytes) per
granted unit. -/
def SECTORS_PER_CLUSTER : Nat := 1

/-- Identifies an inode (`INODE_MAGIC`). -/
def INODE_MAGIC : Nat := 0x494e4f44

/-- The sentinel "no sector" value: `(disk_sector_t) -1` on a 32-bit
`disk_sector_t`. -/
def NO_SECTOR : Nat := 4294967295

/-- On-disk inode (`struct inode_disk`): first data sector, file size in
bytes, magic number.  The 125 unused padding words carry no information
and are not represented. -/
structure InodeDisk where
  start : Nat
  length : Nat
  magic : Nat
deriving DecidableEq, Repr

/-- In-memory inode (`struct inode`): sector number of the record's disk
location, number of openers, removed flag, write-denial count.  The
counters are C `int`s and are modelled as `Int` (closing can drive
`open_cnt` below zero). -/
structure Inode where
  sector : Nat
  open_cnt : Int
  removed : Bool
  deny_write_cnt : Int
  data : InodeDisk
deriving DecidableEq, Repr

/-- Content of one device sector: raw bytes (indexed 0..511), or one
serialized inode record (written by `disk_write (filesys_disk, sector,
disk_inode)`). -/
inductive Sector where
  | raw (bytes : Nat → Nat)
  | stored (r : InodeDisk)

/-- The block device: a map from sector number to sector content. -/
def Disk := Nat → Sector

/-- The all-zero byte buffer (`static char zeros[DISK_SECTOR_SIZE]`). -/
def zeros : Nat → Nat := fun _ => 0

/-- Modelled from the spec: `disk_write` of a full raw sector. -/
def disk_write_raw (d : Disk) (sec : Nat) (bytes : Nat → Nat) : Disk :=
  fun s => if s = sec then Sector.raw bytes else d s

/-- Modelled from the spec: `disk_write` of a serialized inode record. -/
def disk_write_rec (d : Disk) (sec : Nat) (r : InodeDisk) : Disk :=
  fun s => if s = sec then Sector.stored r else d s

/-- Modelled from the spec: `disk_read` of a raw sector; reading a sector
that holds a record (never done on a well-formed layout) yields zeros. -/
def disk_read_raw (d : Disk) (sec : Nat) : Nat → Nat :=
  match d sec with
  | Sector.raw bytes => bytes
  | Sector.stored _ => zeros

/-- Modelled from the spec: `disk_read` of an inode record. -/
def disk_read_rec (d : Disk) (sec : Nat) : InodeDisk :=
  match d sec with
  | Sector.stored r => r
  | Sector.raw _ => ⟨0, 0, 0⟩

/-- Modelled from the spec: the Chain Allocator's address conversions
`cluster_to_sector` / `sector_to_cluster` (`filesys/fat.c` is not part
of the inode sources). -/
structure FatGeo where
  c2s : Nat → Nat
  s2c : Nat → Nat

/-- Modelled from the spec: the Chain Allocator's mutable state.  `next`
is the file allocation table (follow-next; `0` terminates a chain),
`fresh` lists the units the allocator can still grant, in grant order
(exhaustion = empty list), and `removedLog` records, in call order, the
chain heads passed to the free-chain operation. -/
structure FatState where
  next : Nat → Nat
  fresh : List Nat
  removedLog : List Nat

/-- Modelled from the spec: `fat_get`, the follow-next operation. -/
def fat_get (f : FatState) (clst : Nat) : Nat := f.next clst

/-- Modelled from the spec: `fat_create_chain clst` — allocate-and-append.
With `clst = 0` it starts a new chain, otherwise it appends one unit
behind `clst`.  Returns the granted unit, or `0` when the allocator is
exhausted (in which case the state is unchanged). -/
def fat_create_chain (f : FatState) (clst : Nat) : FatState × Nat :=
  match f.fresh with
  | [] => (f, 0)
  | c :: rest =>
      (⟨fun x => if x = clst ∧ clst ≠ 0 then c else if x = c then 0 else f.next x,
        rest, f.removedLog⟩, c)

/-- Modelled from the spec: `fat_remove_chain clst 0` — release the chain
headed at `clst` back to the allocator.  Only the call order is
observable to the claims; it is recorded in `removedLog`. -/
def fat_remove_chain (f : FatState) (clst : Nat) : FatState :=
  ⟨f.next, f.fresh, f.removedLog ++ [clst]⟩

/-- The `for` loop of `byte_to_sector`: advance `n` times from cluster
`c` via the follow-next operation. -/
def chain_walk (f : FatState) : Nat → Nat → Nat
  | 0, c => c
  | n + 1, c => chain_walk f n (fat_get f c)

/-- `byte_to_sector` (EFILESYS version): the disk sector containing byte
offset `pos` of `inode`, or `NO_SECTOR` if `pos > length`. -/
def byte_to_sector (g : FatGeo) (f : FatState) (inode : Inode) (pos : Nat) : Nat :=
  if pos > inode.data.length then
    NO_SECTOR
  else
    let nth_cluster := pos / DISK_SECTOR_SIZE / SECTORS_PER_CLUSTER
    let clst := chain_walk f nth_cluster (g.s2c inode.data.start)
    let clst_ofs := pos - nth_cluster * SECTORS_PER_CLUSTER * DISK_SECTOR_SIZE
    g.c2s clst + clst_ofs / DISK_SECTOR_SIZE

/-- `inode_length`. -/
def inode_length (inode : Inode) : Nat := inode.data.length

/-- Result of the allocation loop of `inode_create`: success flag,
allocator state, disk, and the value accumulated for
`disk_inode->start`. -/
structure CLoop where
  ok : Bool
  fat : FatState
  disk : Disk
  start : Nat

/-- The `while (length >= 0)` loop of `inode_create` (EFILESYS): grant
one unit per iteration, record the first unit's base sector in `start`,
zero-fill the granted sector, and decrement `length` by a sector.  The
loop variable is genuinely signed: it terminates by going negative.  A
failed grant returns `ok = false` immediately (the units granted so far
stay allocated, exactly as in the source). -/
def createLoop (g : FatGeo) (f : FatState) (d : Disk) (startclst : Nat)
    (first : Bool) (start : Nat) (length : Int) : CLoop :=
  if h : 0 ≤ length then
    let p := fat_create_chain f startclst
    if p.2 = 0 then
      ⟨false, p.1, d, start⟩
    else
      let start1 := if first then g.c2s p.2 else start
      let d1 := disk_write_raw d (g.c2s p.2) zeros
      createLoop g p.1 d1 p.2 false start1 (length - 512)
  else
    ⟨true, f, d, start⟩
termination_by (length + 512).toNat
decreasing_by
  omega

/-- Result of `inode_create`. -/
structure CreateResult where
  ok : Bool
  fat : FatState
  disk : Disk

/-- `inode_create` (EFILESYS): allocate `length/512 + 1` zero-filled
units, then write the record (`start`, `length`, `INODE_MAGIC`) to
`sector`.  The `ASSERT (length >= 0)` is encoded by the `Nat` argument;
`calloc` failure is not modelled (out-of-memory is outside the claims).
On a failed grant the record is not written and `false` is returned. -/
def inode_create (g : FatGeo) (f : FatState) (d : Disk) (sector : Nat)
    (length : Nat) : CreateResult :=
  let r := createLoop g f d 0 true 0 (length : Int)
  if r.ok then
    ⟨true, r.fat, disk_write_rec r.disk sector ⟨r.start, length, INODE_MAGIC⟩⟩
  else
    ⟨false, r.fat, r.disk⟩

/-- Result of `file_growth` (and of the growth phase of
`inode_write_at`). -/
structure GrowResult where
  ok : Bool
  inode : Inode
  fat : FatState
  disk : Disk

/-- The `while (growth < new_length - origin_length)` loop of
`file_growth`: extend the chain one unit at a time from `last_clst`,
zero-filling each granted sector.  On exhaustion the length is rolled
back: to `origin + growth` when the original length was sector-aligned,
and to `origin + growth - growth % 512 + 512` otherwise, and `false` is
returned.  The inode passed in already carries the optimistically
updated length `new_length`. -/
def growthLoop (g : FatGeo) (f : FatState) (d : Disk) (inode : Inode)
    (origin new_length : Nat) (last_clst growth : Nat) : GrowResult :=
  if h : growth < new_length - origin then
    let p := fat_create_chain f last_clst
    if p.2 = 0 then
      let rolled :=
        if origin % DISK_SECTOR_SIZE = 0 then
          origin + growth
        else
          origin + growth - growth % DISK_SECTOR_SIZE + DISK_SECTOR_SIZE
      ⟨false, { inode with data.length := rolled }, p.1, d⟩
    else
      let d1 := disk_write_raw d (g.c2s p.2) zeros
      growthLoop g p.1 d1 inode origin new_length p.2 (growth + DISK_SECTOR_SIZE)
  else
    ⟨true, inode, f, d⟩
termination_by new_length - origin - growth
decreasing_by
  simp only [DISK_SECTOR_SIZE]
  omega

/-- `file_growth`: optimistically set `length` to `new_length`, then, if
extension is needed (the original length was sector-aligned, or the new
length passes the boundary of the final partial sector), extend the
chain starting from the unit containing the current end of file. -/
def file_growth (g : FatGeo) (f : FatState) (d : Disk) (inode : Inode)
    (new_length : Nat) : GrowResult :=
  let origin := inode_length inode
  let last_clst := g.s2c (byte_to_sector g f inode origin)
  let inode1 := { inode with data.length := new_length }
  if origin % DISK_SECTOR_SIZE = 0 ∨
      new_length > origin - origin % DISK_SECTOR_SIZE + DISK_SECTOR_SIZE then
    growthLoop g f d inode1 origin new_length last_clst 0
  else
    ⟨true, inode1, f, d⟩

/-- The per-iteration chunk size shared by `inode_read_at` and
`inode_write_at`: `min size (min inode_left sector_left)` with
`inode_left = inode_length - offset` and
`sector_left = DISK_SECTOR_SIZE - offset % DISK_SECTOR_SIZE`.  The C
comparisons are on `int`s; under the claims' non-negative inputs a
negative `inode_left` and the truncated `0` both make the loop break. -/
def chunkOf (inode : Inode) (size offset : Nat) : Nat :=
  min size (min (inode_length inode - offset)
    (DISK_SECTOR_SIZE - offset % DISK_SECTOR_SIZE))

/-- The chunk loop of `inode_read_at`: returns the bytes placed into the
caller's buffer, in order.  Each iteration translates the current
offset, computes `chunk_size` and stops when it is zero.  Both source
branches (whole-sector direct read, and bounce-buffer read plus partial
copy) deliver the bytes `disk[sector_idx][sector_ofs + j]` for
`j < chunk_size`. -/
def readLoop (g : FatGeo) (f : FatState) (inode : Inode) (d : Disk)
    (size offset : Nat) : List Nat :=
  if h : 0 < size then
    if hc : chunkOf inode size offset = 0 then
      []
    else
      (List.range (chunkOf inode size offset)).map
        (fun j => disk_read_raw d (byte_to_sector g f inode offset)
          (offset % DISK_SECTOR_SIZE + j))
        ++ readLoop g f inode d (size - chunkOf inode size offset)
          (offset + chunkOf inode size offset)
  else
    []
termination_by size
decreasing_by
  simp only [chunkOf] at *
  omega

/-- `inode_read_at`. -/
def inode_read_at (g : FatGeo) (f : FatState) (inode : Inode) (d : Disk)
    (size offset : Nat) : List Nat :=
  readLoop g f inode d size offset

/-- The bytes that one iteration of the `inode_write_at` loop leaves in
the written sector.  A full aligned chunk is the caller's buffer
directly; otherwise the chunk is overlaid on a bounce buffer that was
read from the sector when it holds data outside the chunk
(`sector_ofs > 0 || chunk_size < sector_left`) and zeroed otherwise. -/
def writeSectorContent (buffer : List Nat) (d : Disk) (sector_idx : Nat)
    (sector_ofs chunk_size bytes_written : Nat) : Nat → Nat :=
  if sector_ofs = 0 ∧ chunk_size = DISK_SECTOR_SIZE then
    fun i => buffer.getD (bytes_written + i) 0
  else
    fun i =>
      if sector_ofs ≤ i ∧ i < sector_ofs + chunk_size then
        buffer.getD (bytes_written + (i - sector_ofs)) 0
      else if sector_ofs > 0 ∨ chunk_size < DISK_SECTOR_SIZE - sector_ofs then
        disk_read_raw d sector_idx i
      else
        zeros i

/-- The chunk loop of `inode_write_at`: returns the final byte count and
disk.  Each iteration writes one sector with `writeSectorContent` and
advances by `chunk_size`, stopping when the chunk is zero. -/
def writeLoop (g : FatGeo) (f : FatState) (inode : Inode) (buffer : List Nat)
    (d : Disk) (size offset bytes_written : Nat) : Nat × Disk :=
  if h : 0 < size then
    if hc : chunkOf inode size offset = 0 then
      (bytes_written, d)
    else
      let d1 := disk_write_raw d (byte_to_sector g f inode offset)
        (writeSectorContent buffer d (byte_to_sector g f inode offset)
          (offset % DISK_SECTOR_SIZE) (chunkOf inode size offset) bytes_written)
      writeLoop g f inode buffer d1 (size - chunkOf inode size offset)
        (offset + chunkOf inode size offset)
        (bytes_written + chunkOf inode size offset)
  else
    (bytes_written, d)
termination_by size
decreasing_by
  simp only [chunkOf] at *
  omega

/-- Result of `inode_write_at`. -/
structure WriteResult where
  bytes : Nat
  inode : Inode
  fat : FatState
  disk : Disk

/-- `inode_write_at` (EFILESYS): reject with 0 bytes when
`deny_write_cnt` is nonzero; otherwise invoke `file_growth` when the
write's end passes the current length (its boolean result is ignored,
exactly as in the source), then run the chunk loop. -/
def inode_write_at (g : FatGeo) (f : FatState) (inode : Inode)
    (buffer : List Nat) (d : Disk) (size offset : Nat) : WriteResult :=
  if inode.deny_write_cnt ≠ 0 then
    ⟨0, inode, f, d⟩
  else
    let gr :=
      if offset + size > inode_length inode then
        file_growth g f d inode (offset + size)
      else
        ⟨true, inode, f, d⟩
    let r := writeLoop g gr.fat gr.inode buffer gr.disk size offset 0
    ⟨r.1, gr.inode, gr.fat, r.2⟩

/-- `inode_deny_write`: increment, then
`ASSERT (deny_write_cnt <= open_cnt)`.  An assertion failure is an
abort, modelled as `none`. -/
def inode_deny_write (inode : Inode) : Option Inode :=
  let i1 := { inode with deny_write_cnt := inode.deny_write_cnt + 1 }
  if i1.deny_write_cnt ≤ i1.open_cnt then some i1 else none

/-- `inode_allow_write`: `ASSERT (deny_write_cnt > 0)` and
`ASSERT (deny_write_cnt <= open_cnt)`, then decrement. -/
def inode_allow_write (inode : Inode) : Option Inode :=
  if inode.deny_write_cnt > 0 ∧ inode.deny_write_cnt ≤ inode.open_cnt then
    some { inode with deny_write_cnt := inode.deny_write_cnt - 1 }
  else
    none

/-- The whole-module state: the `open_inodes` list, the device, and the
Chain Allocator. -/
structure FS where
  open_inodes : List Inode
  disk : Disk
  fat : FatState

/-- The scan of `inode_open` over `open_inodes`: bump `open_cnt` of the
first inode whose `sector` matches (that is `inode_reopen` on the found
instance), or report that none is registered. -/
def inode_open_scan (sector : Nat) : List Inode → Option (List Inode)
  | [] => none
  | i :: rest =>
      if i.sector = sector then
        some ({ i with open_cnt := i.open_cnt + 1 } :: rest)
      else
        match inode_open_scan sector rest with
        | some rest1 => some (i :: rest1)
        | none => none

/-- `inode_open`: reuse a registered instance (no device access), or
allocate a fresh one, push it at the front of the list, initialize
`open_cnt = 1`, `deny_write_cnt = 0`, `removed = false`, and read its
record from the device.  `malloc` failure is not modelled. -/
def inode_open (st : FS) (sector : Nat) : FS :=
  match inode_open_scan sector st.open_inodes with
  | some l => { st with open_inodes := l }
  | none =>
      { st with open_inodes :=
          ⟨sector, 1, false, 0, disk_read_rec st.disk sector⟩ :: st.open_inodes }

/-- The scan of `inode_close` over `open_inodes` for the first inode
whose `sector` matches the handle: decrement `open_cnt`; at zero, remove
it from the list, flush the record to the device, and, when `removed`
is set, release the chain headed at the record's own sector and then the
data chain — in exactly the source's call order. -/
def close_scan (g : FatGeo) (sector : Nat) :
    List Inode → Disk → FatState → List Inode × Disk × FatState
  | [], d, f => ([], d, f)
  | i :: rest, d, f =>
      if i.sector = sector then
        let i1 := { i with open_cnt := i.open_cnt - 1 }
        if i1.open_cnt = 0 then
          let d1 := disk_write_rec d i1.sector i1.data
          let f1 :=
            if i1.removed then
              fat_remove_chain (fat_remove_chain f (g.s2c i1.sector))
                (g.s2c i1.data.start)
            else
              f
          (rest, d1, f1)
        else
          (i1 :: rest, d, f)
      else
        let r := close_scan g sector rest d f
        (i :: r.1, r.2.1, r.2.2)

/-- `inode_close`: a null handle is ignored; otherwise the handle's
inode is processed by `close_scan`. -/
def inode_close (g : FatGeo) (st : FS) (h : Option Nat) : FS :=
  match h with
  | none => st
  | some sector =>
      let r := close_scan g sector st.open_inodes st.disk st.fat
      ⟨r.1, r.2.1, r.2.2⟩

/-- `inode_remove`: mark the handle's inode as removed. -/
def remove_scan (sector : Nat) : List Inode → List Inode
  | [] => []
  | i :: rest =>
      if i.sector = sector then
        { i with removed := true } :: rest
      else
        i :: remove_scan sector rest

/-- `inode_remove` lifted to the module state. -/
def inode_remove (st : FS) (sector : Nat) : FS :=
  { st with open_inodes := remove_scan sector st.open_inodes }

/-- Number of units on the chain headed at `c` (a measurement function
for stating claims, not part of the source): follow `next` until the
terminator, up to `fuel` steps. -/
def chainLen (f : FatState) : Nat → Nat → Nat
  | 0, _ => 0
  | fuel + 1, c => if c = 0 then 0 else 1 + chainLen f fuel (f.next c)

/-- The net effect on the allocator's `next` table of a run of
consecutive `fat_create_chain` grants: starting behind `prev`, the
granted units `cs` are linked in order (each grant links `prev ↦ c`
when `prev` is nonzero and terminates the chain at the new unit).
This is the fold of the per-grant table update of `fat_create_chain`;
it exists so the state left by the allocation loops can be named in
lemmas. -/
def chainUpd (next : Nat → Nat) (prev : Nat) : List Nat → Nat → Nat
  | [], x => next x
  | c :: rest, x =>
      chainUpd (fun y => if y = prev ∧ prev ≠ 0 then c else if y = c then 0 else next y)
        c rest x

/-- Modelled from the spec: the Offset Translator contract of §4.2 —
`unit_index = pos / (sector_size * units_per_cluster)`; advance
`unit_index` times from the chain head via follow-next;
`intra_unit_offset = pos - unit_index * units_per_cluster * sector_size`;
return the unit's base sector plus `intra_unit_offset / sector_size`;
sentinel when `pos > length`. -/
def translateSpec (g : FatGeo) (f : FatState) (inode : Inode) (pos : Nat) : Nat :=
  if pos > inode.data.length then
    NO_SECTOR
  else
    let unit_index := pos / (DISK_SECTOR_SIZE * SECTORS_PER_CLUSTER)
    let intra_unit_offset := pos - unit_index * SECTORS_PER_CLUSTER * DISK_SECTOR_SIZE
    g.c2s (chain_walk f unit_index (g.s2c inode.data.start)) +
      intra_unit_offset / DISK_SECTOR_SIZE

/-! ### Helper lemmas -/

/-- For an in-bounds offset the translator returns the base sector of the
`pos / 512`-th unit of the chain (one sector per unit, so the
intra-unit addend is zero). -/
lemma byte_to_sector_of_le (g : FatGeo) (f : FatState) (i : Inode) (p : Nat)
    (hp : p ≤ i.data.length) :
    byte_to_sector g f i p =
      g.c2s (chain_walk f (p / DISK_SECTOR_SIZE) (g.s2c i.data.start)) := by
  have h0 : ¬ (p > i.data.length) := by omega
  simp only [byte_to_sector]
  rw [if_neg h0]
  simp only [SECTORS_PER_CLUSTER, Nat.div_one, Nat.mul_one, Nat.one_mul]
  have h2 : (p - p / DISK_SECTOR_SIZE * DISK_SECTOR_SIZE) / DISK_SECTOR_SIZE = 0 := by
    apply Nat.div_eq_of_lt
    simp only [DISK_SECTOR_SIZE]
    omega
  rw [h2, Nat.add_zero]

/-- Two in-bounds offsets in the same sector translate to the same
physical sector. -/
lemma byte_to_sector_congr (g : FatGeo) (f : FatState) (i : Inode) (p q : Nat)
    (hp : p ≤ i.data.length) (hq : q ≤ i.data.length)
    (hdiv : p / DISK_SECTOR_SIZE = q / DISK_SECTOR_SIZE) :
    byte_to_sector g f i p = byte_to_sector g f i q := by
  rw [byte_to_sector_of_le g f i p hp, byte_to_sector_of_le g f i q hq, hdiv]

/-- A zero chunk with positive `size` means the offset has reached (or
passed) the file length. -/
lemma chunkOf_eq_zero {inode : Inode} {size offset : Nat} (hs : 0 < size)
    (hc : chunkOf inode size offset = 0) :
    inode.data.length - offset = 0 := by
  simp only [chunkOf, inode_length, DISK_SECTOR_SIZE] at hc
  omega

/-- Splitting the total transfer count at the first chunk. -/
lemma chunkOf_split {inode : Inode} {size offset : Nat} (hs : 0 < size)
    (hc : chunkOf inode size offset ≠ 0) :
    min size (inode.data.length - offset) =
      chunkOf inode size offset +
        min (size - chunkOf inode size offset)
          (inode.data.length - (offset + chunkOf inode size offset)) := by
  simp only [chunkOf, inode_length, DISK_SECTOR_SIZE] at *
  omega

/-- Basic bounds on a nonzero chunk. -/
lemma chunkOf_bounds {inode : Inode} {size offset : Nat} (hs : 0 < size)
    (hc : chunkOf inode size offset ≠ 0) :
    1 ≤ chunkOf inode size offset ∧
      chunkOf inode size offset ≤ size ∧
      chunkOf inode size offset ≤ inode.data.length - offset ∧
      offset % DISK_SECTOR_SIZE + chunkOf inode size offset ≤ DISK_SECTOR_SIZE := by
  simp only [chunkOf, inode_length, DISK_SECTOR_SIZE] at *
  omega

/-- The read loop delivers exactly the device bytes of the logical
positions `offset, offset+1, …`, for `min size (length - offset)`
positions. -/
lemma readLoop_eq_map (g : FatGeo) (f : FatState) (inode : Inode) (d : Disk) :
    ∀ size offset,
      readLoop g f inode d size offset =
        (List.range (min size (inode.data.length - offset))).map
          (fun j => disk_read_raw d (byte_to_sector g f inode (offset + j))
            ((offset + j) % DISK_SECTOR_SIZE)) := by
  intro size
  induction size using Nat.strong_induction_on with
  | h size ih =>
    intro offset
    rw [readLoop]
    by_cases hs : 0 < size
    · rw [dif_pos hs]
      by_cases hc : chunkOf inode size offset = 0
      · rw [dif_pos hc]
        rw [chunkOf_eq_zero hs hc]
        simp
      · rw [dif_neg hc]
        obtain ⟨h1, h2, h3, h4⟩ := chunkOf_bounds hs hc
        rw [ih (size - chunkOf inode size offset) (by omega)
          (offset + chunkOf inode size offset)]
        rw [chunkOf_split hs hc, List.range_add, List.map_append, List.map_map]
        congr 1
        · apply List.map_congr_left
          intro j hj
          rw [List.mem_range] at hj
          have hofs : offset ≤ inode.data.length := by omega
          have hofj : offset + j ≤ inode.data.length := by omega
          have hdiv : (offset + j) / DISK_SECTOR_SIZE = offset / DISK_SECTOR_SIZE := by
            simp only [DISK_SECTOR_SIZE] at *
            omega
          rw [byte_to_sector_congr g f inode (offset + j) offset hofj hofs hdiv]
          have hmod : (offset + j) % DISK_SECTOR_SIZE =
              offset % DISK_SECTOR_SIZE + j := by
            simp only [DISK_SECTOR_SIZE] at *
            omega
          rw [hmod]
        · apply List.map_congr_left
          intro j hj
          simp only [Function.comp]
          rw [← Nat.add_assoc]
    · rw [dif_neg hs]
      have : size = 0 := by omega
      subst this
      simp

/-- The write loop transfers exactly `min size (length - offset)` bytes
on top of the count accumulated so far. -/
lemma writeLoop_bytes (g : FatGeo) (f : FatState) (inode : Inode)
    (buffer : List Nat) :
    ∀ size offset bytes_written d,
      (writeLoop g f inode buffer d size offset bytes_written).1 =
        bytes_written + min size (inode.data.length - offset) := by
  intro size
  induction size using Nat.strong_induction_on with
  | h size ih =>
    intro offset bytes_written d
    rw [writeLoop]
    by_cases hs : 0 < size
    · rw [dif_pos hs]
      by_cases hc : chunkOf inode size offset = 0
      · rw [dif_pos hc]
        rw [chunkOf_eq_zero hs hc]
        simp
      · rw [dif_neg hc]
        obtain ⟨h1, h2, h3, h4⟩ := chunkOf_bounds hs hc
        rw [ih (size - chunkOf inode size offset) (by omega)]
        rw [chunkOf_split hs hc]
        omega
    · rw [dif_neg hs]
      have : size = 0 := by omega
      subst this
      simp

/-! ### C6: the offset translator -/

/-- C6: for every inode and logical offset, `byte_to_sector` returns the
sentinel invalid sector exactly on the `pos > length` branch, and
otherwise the sector obtained by dividing by
`sector_size * sectors_per_cluster`, advancing that many times from the
chain head via follow-next, and adding the intra-unit sector index —
i.e. it coincides with the Offset Translator contract `translateSpec`
modelled from the specification. -/
theorem C6_byte_to_sector_matches_contract (g : FatGeo) (f : FatState)
    (inode : Inode) (pos : Nat) :
    byte_to_sector g f inode pos = translateSpec g f inode pos ∧
    (inode.data.length < pos → byte_to_sector g f inode pos = NO_SECTOR) ∧
    (pos ≤ inode.data.length →
      byte_to_sector g f inode pos =
        g.c2s (chain_walk f (pos / (DISK_SECTOR_SIZE * SECTORS_PER_CLUSTER))
            (g.s2c inode.data.start)) +
          (pos - pos / (DISK_SECTOR_SIZE * SECTORS_PER_CLUSTER) *
            SECTORS_PER_CLUSTER * DISK_SECTOR_SIZE) / DISK_SECTOR_SIZE) := by
  refine ⟨?_, ?_, ?_⟩
  · simp only [byte_to_sector, translateSpec, Nat.div_div_eq_div_mul]
  · intro hlt
    simp only [byte_to_sector]
    rw [if_pos (by omega)]
  · intro hle
    simp only [byte_to_sector, Nat.div_div_eq_div_mul]
    rw [if_neg (by omega)]

/-- Witness for C6 at a concrete translator instance. -/
theorem C6_witness :
    byte_to_sector ⟨fun c => c, fun s => s⟩ ⟨fun _ => 0, [], []⟩
        ⟨7, 1, false, 0, ⟨3, 1000, INODE_MAGIC⟩⟩ 700 =
      translateSpec ⟨fun c => c, fun s => s⟩ ⟨fun _ => 0, [], []⟩
        ⟨7, 1, false, 0, ⟨3, 1000, INODE_MAGIC⟩⟩ 700 ∧
    (1000 < 700 → byte_to_sector ⟨fun c => c, fun s => s⟩ ⟨fun _ => 0, [], []⟩
        ⟨7, 1, false, 0, ⟨3, 1000, INODE_MAGIC⟩⟩ 700 = NO_SECTOR) ∧
    (700 ≤ 1000 → byte_to_sector ⟨fun c => c, fun s => s⟩ ⟨fun _ => 0, [], []⟩
        ⟨7, 1, false, 0, ⟨3, 1000, INODE_MAGIC⟩⟩ 700 =
      (⟨fun c => c, fun s => s⟩ : FatGeo).c2s
          (chain_walk ⟨fun _ => 0, [], []⟩
            (700 / (DISK_SECTOR_SIZE * SECTORS_PER_CLUSTER))
            ((⟨fun c => c, fun s => s⟩ : FatGeo).s2c 3)) +
        (700 - 700 / (DISK_SECTOR_SIZE * SECTORS_PER_CLUSTER) *
          SECTORS_PER_CLUSTER * DISK_SECTOR_SIZE) / DISK_SECTOR_SIZE) :=
  C6_byte_to_sector_matches_contract ⟨fun c => c, fun s => s⟩
    ⟨fun _ => 0, [], []⟩ ⟨7, 1, false, 0, ⟨3, 1000, INODE_MAGIC⟩⟩ 700

/-! ### C7: the read engine -/

/-- C7: a read transfers exactly `min size (max 0 (length - offset))`
bytes (`Nat` subtraction is the truncated difference), every byte it
returns comes from a logical position strictly below `length`, and the
bytes are precisely the device contents at positions
`offset … offset + count - 1`; end-of-file therefore yields a short
count with no error path. -/
theorem C7_read_never_past_length (g : FatGeo) (f : FatState) (inode : Inode)
    (d : Disk) (size offset : Nat) :
    (inode_read_at g f inode d size offset).length =
      min size (inode.data.length - offset) ∧
    (∀ j < min size (inode.data.length - offset),
      offset + j < inode.data.length) ∧
    inode_read_at g f inode d size offset =
      (List.range (min size (inode.data.length - offset))).map
        (fun j => disk_read_raw d (byte_to_sector g f inode (offset + j))
          ((offset + j) % DISK_SECTOR_SIZE)) := by
  refine ⟨?_, ?_, ?_⟩
  · rw [inode_read_at, readLoop_eq_map]
    simp
  · intro j hj
    omega
  · rw [inode_read_at, readLoop_eq_map]

/-! ### Growth-engine lemmas -/

/-- A successful pass of the growth loop leaves the (already updated)
inode untouched: rollback happens only on the failure path. -/
lemma growthLoop_ok_inode (g : FatGeo) (f : FatState) (d : Disk) (inode : Inode)
    (origin new_length last_clst growth : Nat) :
    (growthLoop g f d inode origin new_length last_clst growth).ok = true →
    (growthLoop g f d inode origin new_length last_clst growth).inode = inode := by
  refine growthLoop.induct g
    (fun f d inode origin new_length last_clst growth =>
      (growthLoop g f d inode origin new_length last_clst growth).ok = true →
      (growthLoop g f d inode origin new_length last_clst growth).inode = inode)
    ?_ ?_ ?_ f d inode origin new_length last_clst growth
  · intro f d inode origin new_length last_clst growth hlt p hp hok
    have hp2 : (fat_create_chain f last_clst).2 = 0 := hp
    rw [growthLoop, dif_pos hlt] at hok
    simp [hp2] at hok
  · intro f d inode origin new_length last_clst growth hlt p hp d1 ih hok
    have hp2 : ¬ (fat_create_chain f last_clst).2 = 0 := hp
    rw [growthLoop, dif_pos hlt] at hok ⊢
    rw [if_neg hp2] at hok ⊢
    exact ih hok
  · intro f d inode origin new_length last_clst growth hlt hok
    rw [growthLoop, dif_neg hlt]

/-- A successful `file_growth` leaves the length at `new_length`. -/
lemma file_growth_ok_inode (g : FatGeo) (f : FatState) (d : Disk)
    (inode : Inode) (new_length : Nat) :
    (file_growth g f d inode new_length).ok = true →
    (file_growth g f d inode new_length).inode =
      { inode with data.length := new_length } := by
  intro hok
  rw [file_growth] at hok ⊢
  by_cases hb : inode_length inode % DISK_SECTOR_SIZE = 0 ∨
      new_length > inode_length inode -
        inode_length inode % DISK_SECTOR_SIZE + DISK_SECTOR_SIZE
  · rw [if_pos hb] at hok ⊢
    exact growthLoop_ok_inode _ _ _ _ _ _ _ _ hok
  · rw [if_neg hb]

/-! ### C3: short writes happen only on growth failure -/

/-- C3: with writes allowed and a positive size, a write that does not
pass the end of file transfers exactly `size` bytes; a write whose
growth succeeds also transfers exactly `size` bytes; and a short return
can only happen when growth was invoked and failed, in which case the
count is exactly what the committed, rolled-back length admits. -/
theorem C3_write_short_only_on_growth_failure (g : FatGeo) (f : FatState)
    (inode : Inode) (buffer : List Nat) (d : Disk) (size offset : Nat)
    (hdeny : inode.deny_write_cnt = 0) (hs : 0 < size) :
    (offset + size ≤ inode_length inode →
      (inode_write_at g f inode buffer d size offset).bytes = size) ∧
    (inode_length inode < offset + size →
      (file_growth g f d inode (offset + size)).ok = true →
      (inode_write_at g f inode buffer d size offset).bytes = size) ∧
    ((inode_write_at g f inode buffer d size offset).bytes < size →
      inode_length inode < offset + size ∧
      (file_growth g f d inode (offset + size)).ok = false ∧
      (inode_write_at g f inode buffer d size offset).bytes =
        min size
          ((file_growth g f d inode (offset + size)).inode.data.length - offset)) := by
  have hd : ¬ inode.deny_write_cnt ≠ 0 := by omega
  by_cases hgrow : offset + size > inode_length inode
  · -- growth invoked
    have hw : inode_write_at g f inode buffer d size offset =
        ⟨(writeLoop g (file_growth g f d inode (offset + size)).fat
            (file_growth g f d inode (offset + size)).inode buffer
            (file_growth g f d inode (offset + size)).disk size offset 0).1,
          (file_growth g f d inode (offset + size)).inode,
          (file_growth g f d inode (offset + size)).fat,
          (writeLoop g (file_growth g f d inode (offset + size)).fat
            (file_growth g f d inode (offset + size)).inode buffer
            (file_growth g f d inode (offset + size)).disk size offset 0).2⟩ := by
      rw [inode_write_at, if_neg hd, if_pos hgrow]
    refine ⟨fun hle => by omega, fun _ hok => ?_, fun hshort => ?_⟩
    · rw [hw]
      simp only [writeLoop_bytes, file_growth_ok_inode g f d inode _ hok]
      simp only [Nat.zero_add]
      omega
    · rw [hw] at hshort ⊢
      simp only [writeLoop_bytes, Nat.zero_add] at hshort ⊢
      refine ⟨hgrow, ?_, by trivial⟩
      by_contra hok
      have hok2 : (file_growth g f d inode (offset + size)).ok = true := by
        cases h : (file_growth g f d inode (offset + size)).ok
        · exact absurd h hok
        · rfl
      rw [file_growth_ok_inode g f d inode _ hok2] at hshort
      simp only [] at hshort
      omega
  · -- no growth
    have hw : inode_write_at g f inode buffer d size offset =
        ⟨(writeLoop g f inode buffer d size offset 0).1, inode, f,
          (writeLoop g f inode buffer d size offset 0).2⟩ := by
      rw [inode_write_at, if_neg hd, if_neg hgrow]
    refine ⟨fun hle => ?_, fun hgt _ => by omega, fun hshort => ?_⟩
    · rw [hw]
      simp only [writeLoop_bytes, Nat.zero_add, inode_length] at *
      omega
    · rw [hw] at hshort
      simp only [writeLoop_bytes, Nat.zero_add, inode_length] at hshort
      simp only [inode_length] at hgrow
      omega

/-- Witness for C3: an in-bounds write of 4 bytes into a 512-byte file
transfers all 4 bytes. -/
theorem C3_witness :
    (⟨3, 1, false, 0, ⟨9, 512, INODE_MAGIC⟩⟩ : Inode).deny_write_cnt = 0 ∧
    0 < 4 ∧
    (0 + 4 ≤ inode_length ⟨3, 1, false, 0, ⟨9, 512, INODE_MAGIC⟩⟩ →
      (inode_write_at ⟨fun c => c, fun s => s⟩ ⟨fun _ => 0, [], []⟩
        ⟨3, 1, false, 0, ⟨9, 512, INODE_MAGIC⟩⟩ [1, 2, 3, 4]
        (fun _ => Sector.raw zeros) 4 0).bytes = 4) :=
  ⟨by decide, by decide,
    (C3_write_short_only_on_growth_failure ⟨fun c => c, fun s => s⟩
      ⟨fun _ => 0, [], []⟩ ⟨3, 1, false, 0, ⟨9, 512, INODE_MAGIC⟩⟩
      [1, 2, 3, 4] (fun _ => Sector.raw zeros) 4 0 (by decide) (by decide)).1⟩

/-! ### C5: the deny-write gate -/

/-- C5: while `deny_write_cnt > 0` every write through any handle to
this inode returns 0 bytes and leaves the inode, the allocator and the
device exactly unchanged; a matching `inode_allow_write` decrements the
counter (the asserts pass), and once the counter is back at 0 an
in-bounds write transfers all its bytes again. -/
theorem C5_deny_write_silent_reject (g : FatGeo) (f : FatState)
    (inode : Inode) (buffer : List Nat) (d : Disk) (size offset : Nat)
    (hdeny : 0 < inode.deny_write_cnt)
    (hopen : inode.deny_write_cnt ≤ inode.open_cnt) :
    inode_write_at g f inode buffer d size offset = ⟨0, inode, f, d⟩ ∧
    inode_allow_write inode =
      some { inode with deny_write_cnt := inode.deny_write_cnt - 1 } ∧
    (inode.deny_write_cnt = 1 → 0 < size →
      offset + size ≤ inode_length inode →
      (inode_write_at g f { inode with deny_write_cnt := inode.deny_write_cnt - 1 }
        buffer d size offset).bytes = size) := by
  refine ⟨?_, ?_, ?_⟩
  · rw [inode_write_at, if_pos (by omega)]
  · rw [inode_allow_write, if_pos ⟨hdeny, hopen⟩]
  · intro h1 hsz hle
    have hd : ¬ ({ inode with deny_write_cnt := inode.deny_write_cnt - 1 } :
        Inode).deny_write_cnt ≠ 0 := by
      show ¬ (inode.deny_write_cnt - 1 ≠ 0)
      omega
    have hlen : inode_length { inode with deny_write_cnt := inode.deny_write_cnt - 1 } =
        inode_length inode := rfl
    have hgrow : ¬ (offset + size >
        inode_length { inode with deny_write_cnt := inode.deny_write_cnt - 1 }) := by
      rw [hlen]
      omega
    rw [inode_write_at, if_neg hd, if_neg hgrow]
    simp only [writeLoop_bytes, Nat.zero_add]
    rw [show ({ inode with deny_write_cnt := inode.deny_write_cnt - 1 } :
      Inode).data.length = inode_length inode from rfl]
    omega

/-- Witness for C5 on a concrete denied inode. -/
theorem C5_witness :
    0 < (⟨3, 1, false, 1, ⟨9, 512, INODE_MAGIC⟩⟩ : Inode).deny_write_cnt ∧
    (⟨3, 1, false, 1, ⟨9, 512, INODE_MAGIC⟩⟩ : Inode).deny_write_cnt ≤
      (⟨3, 1, false, 1, ⟨9, 512, INODE_MAGIC⟩⟩ : Inode).open_cnt ∧
    inode_write_at ⟨fun c => c, fun s => s⟩ ⟨fun _ => 0, [], []⟩
        ⟨3, 1, false, 1, ⟨9, 512, INODE_MAGIC⟩⟩ [5]
        (fun _ => Sector.raw zeros) 1 0 =
      ⟨0, ⟨3, 1, false, 1, ⟨9, 512, INODE_MAGIC⟩⟩, ⟨fun _ => 0, [], []⟩,
        fun _ => Sector.raw zeros⟩ :=
  ⟨by decide, by decide,
    (C5_deny_write_silent_reject ⟨fun c => c, fun s => s⟩ ⟨fun _ => 0, [], []⟩
      ⟨3, 1, false, 1, ⟨9, 512, INODE_MAGIC⟩⟩ [5] (fun _ => Sector.raw zeros)
      1 0 (by decide) (by decide)).1⟩

/-! ### Lifecycle lemmas -/

/-- If no registered inode carries `sector`, the open scan fails. -/
lemma inode_open_scan_none (sector : Nat) :
    ∀ l : List Inode, (∀ i ∈ l, i.sector ≠ sector) →
      inode_open_scan sector l = none := by
  intro l
  induction l with
  | nil => intro _; rfl
  | cons i rest ih =>
      intro hmem
      have hi : ¬ i.sector = sector := hmem i (by simp)
      simp only [inode_open_scan]
      rw [if_neg hi, ih (fun j hj => hmem j (List.mem_cons_of_mem i hj))]

/-- The close scan passes over a prefix that does not carry the
handle's sector. -/
lemma close_scan_skip (g : FatGeo) (sector : Nat) :
    ∀ (pre rest : List Inode) (d : Disk) (f : FatState),
      (∀ j ∈ pre, j.sector ≠ sector) →
      close_scan g sector (pre ++ rest) d f =
        (pre ++ (close_scan g sector rest d f).1,
         (close_scan g sector rest d f).2.1,
         (close_scan g sector rest d f).2.2) := by
  intro pre
  induction pre with
  | nil => intro rest d f _; simp
  | cons i pre ih =>
      intro rest d f hmem
      have hi : ¬ i.sector = sector := hmem i (by simp)
      simp only [List.cons_append, close_scan, List.append_eq]
      rw [if_neg hi, ih rest d f (fun j hj => hmem j (List.mem_cons_of_mem i hj))]

/-- Closing the head inode of the list: decrement, and release at
zero. -/
lemma close_scan_cons_self (g : FatGeo) (i : Inode) (post : List Inode)
    (d : Disk) (f : FatState) :
    close_scan g i.sector (i :: post) d f =
      if i.open_cnt - 1 = 0 then
        (post, disk_write_rec d i.sector i.data,
          if i.removed then
            fat_remove_chain (fat_remove_chain f (g.s2c i.sector))
              (g.s2c i.data.start)
          else f)
      else
        ({ i with open_cnt := i.open_cnt - 1 } :: post, d, f) := by
  simp only [close_scan, if_true]

/-! ### C2: what the final close releases, and in which order -/

/-- C2 counterexample: on a removed inode whose record lives at sector 5
with data chain headed at sector 9 (identity geometry), the final close
releases the record's own sector FIRST and the data chain SECOND — the
log reads `[5, 9]`, not the `[9, 5]` the claim's order (data chain
first, record second) would produce. -/
theorem C2_counterexample :
    (inode_close ⟨fun c => c, fun s => s⟩
        ⟨[⟨5, 1, true, 0, ⟨9, 0, INODE_MAGIC⟩⟩],
          fun _ => Sector.raw zeros, ⟨fun _ => 0, [], []⟩⟩
        (some 5)).fat.removedLog = [5, 9] ∧
    (inode_close ⟨fun c => c, fun s => s⟩
        ⟨[⟨5, 1, true, 0, ⟨9, 0, INODE_MAGIC⟩⟩],
          fun _ => Sector.raw zeros, ⟨fun _ => 0, [], []⟩⟩
        (some 5)).fat.removedLog ≠ [9, 5] := by
  constructor
  · rw [inode_close]
    simp [close_scan, fat_remove_chain]
  · rw [inode_close]
    simp [close_scan, fat_remove_chain]

/-- C2 (amended): closing a null handle is a no-op; closing a live
handle decrements `open_cnt`; when the count reaches zero the inode is
unregistered, its record is flushed to the device, and when
`pending_delete` is set the record's OWN storage sector is released
first and the data chain headed at `root_block` second (the reverse of
the order the original claim states); without `pending_delete` the
allocator is untouched. -/
theorem C2_close_decrements_flushes_frees (g : FatGeo) (st : FS)
    (pre post : List Inode) (i : Inode)
    (hl : st.open_inodes = pre ++ i :: post)
    (hpre : ∀ j ∈ pre, j.sector ≠ i.sector) :
    inode_close g st none = st ∧
    (i.open_cnt ≠ 1 →
      inode_close g st (some i.sector) =
        ⟨pre ++ { i with open_cnt := i.open_cnt - 1 } :: post, st.disk, st.fat⟩) ∧
    (i.open_cnt = 1 →
      (inode_close g st (some i.sector)).open_inodes = pre ++ post ∧
      (inode_close g st (some i.sector)).disk =
        disk_write_rec st.disk i.sector i.data ∧
      (i.removed = true →
        (inode_close g st (some i.sector)).fat =
          ⟨st.fat.next, st.fat.fresh,
            st.fat.removedLog ++ [g.s2c i.sector, g.s2c i.data.start]⟩) ∧
      (i.removed = false → (inode_close g st (some i.sector)).fat = st.fat)) := by
  have hbase : close_scan g i.sector st.open_inodes st.disk st.fat =
      (pre ++ (close_scan g i.sector (i :: post) st.disk st.fat).1,
       (close_scan g i.sector (i :: post) st.disk st.fat).2.1,
       (close_scan g i.sector (i :: post) st.disk st.fat).2.2) := by
    rw [hl]
    exact close_scan_skip g i.sector pre (i :: post) st.disk st.fat hpre
  refine ⟨rfl, ?_, ?_⟩
  · intro hcnt
    have hz : ¬ (i.open_cnt - 1 = 0) := by omega
    rw [inode_close]
    simp only [hbase, close_scan_cons_self, if_neg hz]
  · intro hcnt
    have hz : i.open_cnt - 1 = 0 := by omega
    refine ⟨?_, ?_, ?_, ?_⟩
    · rw [inode_close]
      simp only [hbase, close_scan_cons_self, if_pos hz]
    · rw [inode_close]
      simp only [hbase, close_scan_cons_self, if_pos hz]
    · intro hrem
      rw [inode_close]
      simp only [hbase, close_scan_cons_self, if_pos hz, hrem, if_true]
      simp [fat_remove_chain]
    · intro hrem
      rw [inode_close]
      simp only [hbase, close_scan_cons_self, if_pos hz, hrem]
      simp

/-- Witness for C2 (amended) on a two-element table. -/
theorem C2_witness :
    ((⟨[⟨4, 2, false, 0, ⟨8, 0, INODE_MAGIC⟩⟩, ⟨5, 1, true, 0, ⟨9, 0, INODE_MAGIC⟩⟩],
        fun _ => Sector.raw zeros, ⟨fun _ => 0, [], []⟩⟩ : FS).open_inodes =
      [⟨4, 2, false, 0, ⟨8, 0, INODE_MAGIC⟩⟩] ++
        (⟨5, 1, true, 0, ⟨9, 0, INODE_MAGIC⟩⟩ : Inode) :: []) ∧
    (∀ j ∈ [(⟨4, 2, false, 0, ⟨8, 0, INODE_MAGIC⟩⟩ : Inode)], j.sector ≠ 5) ∧
    ((⟨5, 1, true, 0, ⟨9, 0, INODE_MAGIC⟩⟩ : Inode).open_cnt = 1 →
      (inode_close ⟨fun c => c, fun s => s⟩
        ⟨[⟨4, 2, false, 0, ⟨8, 0, INODE_MAGIC⟩⟩, ⟨5, 1, true, 0, ⟨9, 0, INODE_MAGIC⟩⟩],
          fun _ => Sector.raw zeros, ⟨fun _ => 0, [], []⟩⟩ (some 5)).open_inodes =
        [⟨4, 2, false, 0, ⟨8, 0, INODE_MAGIC⟩⟩] ++ [] ∧
      (inode_close ⟨fun c => c, fun s => s⟩
        ⟨[⟨4, 2, false, 0, ⟨8, 0, INODE_MAGIC⟩⟩, ⟨5, 1, true, 0, ⟨9, 0, INODE_MAGIC⟩⟩],
          fun _ => Sector.raw zeros, ⟨fun _ => 0, [], []⟩⟩ (some 5)).disk =
        disk_write_rec (fun _ => Sector.raw zeros) 5 ⟨9, 0, INODE_MAGIC⟩ ∧
      ((⟨5, 1, true, 0, ⟨9, 0, INODE_MAGIC⟩⟩ : Inode).removed = true →
        (inode_close ⟨fun c => c, fun s => s⟩
          ⟨[⟨4, 2, false, 0, ⟨8, 0, INODE_MAGIC⟩⟩, ⟨5, 1, true, 0, ⟨9, 0, INODE_MAGIC⟩⟩],
            fun _ => Sector.raw zeros, ⟨fun _ => 0, [], []⟩⟩ (some 5)).fat =
          ⟨(⟨fun _ => 0, [], []⟩ : FatState).next, (⟨fun _ => 0, [], []⟩ : FatState).fresh,
            (⟨fun _ => 0, [], []⟩ : FatState).removedLog ++
              [(⟨fun c => c, fun s => s⟩ : FatGeo).s2c 5,
               (⟨fun c => c, fun s => s⟩ : FatGeo).s2c 9]⟩) ∧
      ((⟨5, 1, true, 0, ⟨9, 0, INODE_MAGIC⟩⟩ : Inode).removed = false →
        (inode_close ⟨fun c => c, fun s => s⟩
          ⟨[⟨4, 2, false, 0, ⟨8, 0, INODE_MAGIC⟩⟩, ⟨5, 1, true, 0, ⟨9, 0, INODE_MAGIC⟩⟩],
            fun _ => Sector.raw zeros, ⟨fun _ => 0, [], []⟩⟩ (some 5)).fat =
          ⟨fun _ => 0, [], []⟩)) :=
  ⟨rfl, by decide,
    (C2_close_decrements_flushes_frees ⟨fun c => c, fun s => s⟩
      ⟨[⟨4, 2, false, 0, ⟨8, 0, INODE_MAGIC⟩⟩, ⟨5, 1, true, 0, ⟨9, 0, INODE_MAGIC⟩⟩],
        fun _ => Sector.raw zeros, ⟨fun _ => 0, [], []⟩⟩
      [⟨4, 2, false, 0, ⟨8, 0, INODE_MAGIC⟩⟩] []
      ⟨5, 1, true, 0, ⟨9, 0, INODE_MAGIC⟩⟩ rfl (by decide)).2.2⟩

/-! ### C9: who enforces the deny-write invariant -/

/-- C9 counterexample: `inode_close` performs no invariant check at all.
Closing one of two openers that both hold a write denial
(`open_cnt = 2`, `deny_write_cnt = 2`) returns normally and leaves a
registered inode with `deny_write_cnt = 2 > open_cnt = 1` — the call
neither preserves `deny_write_count ≤ open_count` nor aborts
assertion-style, contradicting the claim for `close`. -/
theorem C9_counterexample :
    (inode_close ⟨fun c => c, fun s => s⟩
        ⟨[⟨3, 2, false, 2, ⟨9, 0, INODE_MAGIC⟩⟩],
          fun _ => Sector.raw zeros, ⟨fun _ => 0, [], []⟩⟩
        (some 3)).open_inodes =
      [⟨3, 1, false, 2, ⟨9, 0, INODE_MAGIC⟩⟩] ∧
    ∃ j ∈ (inode_close ⟨fun c => c, fun s => s⟩
        ⟨[⟨3, 2, false, 2, ⟨9, 0, INODE_MAGIC⟩⟩],
          fun _ => Sector.raw zeros, ⟨fun _ => 0, [], []⟩⟩
        (some 3)).open_inodes,
      ¬ (j.deny_write_cnt ≤ j.open_cnt) := by
  have hc : inode_close ⟨fun c => c, fun s => s⟩
      ⟨[⟨3, 2, false, 2, ⟨9, 0, INODE_MAGIC⟩⟩],
        fun _ => Sector.raw zeros, ⟨fun _ => 0, [], []⟩⟩
      (some 3) =
      ⟨[⟨3, 1, false, 2, ⟨9, 0, INODE_MAGIC⟩⟩],
        fun _ => Sector.raw zeros, ⟨fun _ => 0, [], []⟩⟩ := by
    rw [inode_close]
    simp [close_scan]
  rw [hc]
  refine ⟨rfl, ⟨3, 1, false, 2, ⟨9, 0, INODE_MAGIC⟩⟩, by simp, by simp⟩

/-- C9 (amended): `inode_deny_write` and `inode_allow_write` maintain
`0 ≤ deny_write_cnt ≤ open_cnt` and abort assertion-style on any call
that would violate it (allow at zero, deny past `open_cnt`); `close`
performs no such enforcement (see the counterexample). -/
theorem C9_deny_allow_enforce_invariant (i : Inode)
    (hinv : 0 ≤ i.deny_write_cnt ∧ i.deny_write_cnt ≤ i.open_cnt) :
    (i.deny_write_cnt + 1 ≤ i.open_cnt →
      inode_deny_write i = some { i with deny_write_cnt := i.deny_write_cnt + 1 } ∧
      0 ≤ i.deny_write_cnt + 1 ∧ i.deny_write_cnt + 1 ≤ i.open_cnt) ∧
    (i.open_cnt < i.deny_write_cnt + 1 → inode_deny_write i = none) ∧
    (i.deny_write_cnt = 0 → inode_allow_write i = none) ∧
    (0 < i.deny_write_cnt →
      inode_allow_write i = some { i with deny_write_cnt := i.deny_write_cnt - 1 } ∧
      0 ≤ i.deny_write_cnt - 1 ∧ i.deny_write_cnt - 1 ≤ i.open_cnt) := by
  refine ⟨fun h => ⟨?_, by omega, by omega⟩, fun h => ?_, fun h => ?_,
    fun h => ⟨?_, by omega, by omega⟩⟩
  · simp only [inode_deny_write]
    rw [if_pos (show ({ i with deny_write_cnt := i.deny_write_cnt + 1 } :
      Inode).deny_write_cnt ≤ ({ i with deny_write_cnt := i.deny_write_cnt + 1 } :
      Inode).open_cnt from h)]
  · simp only [inode_deny_write]
    rw [if_neg (show ¬ ({ i with deny_write_cnt := i.deny_write_cnt + 1 } :
      Inode).deny_write_cnt ≤ ({ i with deny_write_cnt := i.deny_write_cnt + 1 } :
      Inode).open_cnt from by show ¬ (i.deny_write_cnt + 1 ≤ i.open_cnt); omega)]
  · rw [inode_allow_write, if_neg (by omega)]
  · rw [inode_allow_write, if_pos ⟨h, hinv.2⟩]

/-- Witness for C9 (amended) at a concrete inode with one spare denial
slot. -/
theorem C9_witness :
    (0 ≤ (⟨3, 2, false, 1, ⟨9, 0, INODE_MAGIC⟩⟩ : Inode).deny_write_cnt ∧
      (⟨3, 2, false, 1, ⟨9, 0, INODE_MAGIC⟩⟩ : Inode).deny_write_cnt ≤
        (⟨3, 2, false, 1, ⟨9, 0, INODE_MAGIC⟩⟩ : Inode).open_cnt) ∧
    (0 < (⟨3, 2, false, 1, ⟨9, 0, INODE_MAGIC⟩⟩ : Inode).deny_write_cnt →
      inode_allow_write ⟨3, 2, false, 1, ⟨9, 0, INODE_MAGIC⟩⟩ =
        some { (⟨3, 2, false, 1, ⟨9, 0, INODE_MAGIC⟩⟩ : Inode) with
          deny_write_cnt :=
            (⟨3, 2, false, 1, ⟨9, 0, INODE_MAGIC⟩⟩ : Inode).deny_write_cnt - 1 } ∧
      0 ≤ (⟨3, 2, false, 1, ⟨9, 0, INODE_MAGIC⟩⟩ : Inode).deny_write_cnt - 1 ∧
      (⟨3, 2, false, 1, ⟨9, 0, INODE_MAGIC⟩⟩ : Inode).deny_write_cnt - 1 ≤
        (⟨3, 2, false, 1, ⟨9, 0, INODE_MAGIC⟩⟩ : Inode).open_cnt) :=
  ⟨by decide,
    (C9_deny_allow_enforce_invariant ⟨3, 2, false, 1, ⟨9, 0, INODE_MAGIC⟩⟩
      (by decide)).2.2.2⟩

/-! ### C8: open-handle deduplication and the 2 → 1 → 0 lifecycle -/

/-- C8: opening an unregistered sector allocates a fresh instance
initialized from the device record with `open_cnt = 1`,
`deny_write_cnt = 0`, `pending_delete = false`, pushed onto the table;
opening it again returns the same registered instance with `open_cnt`
bumped to 2 and performs no device read (the result does not depend on
the disk); the two closes step the count 2 → 1 → 0, with the record
flushed only at the second close, the allocator untouched when the
inode was not removed, and the chains released at the second close when
it was. -/
theorem C8_open_dedups_and_counts (g : FatGeo) (st : FS) (sector : Nat)
    (hfresh : ∀ i ∈ st.open_inodes, i.sector ≠ sector) :
    inode_open st sector =
      ⟨⟨sector, 1, false, 0, disk_read_rec st.disk sector⟩ :: st.open_inodes,
        st.disk, st.fat⟩ ∧
    inode_open (inode_open st sector) sector =
      ⟨⟨sector, 2, false, 0, disk_read_rec st.disk sector⟩ :: st.open_inodes,
        st.disk, st.fat⟩ ∧
    (∀ d1 : Disk,
      (inode_open ⟨(inode_open st sector).open_inodes, d1, st.fat⟩
          sector).open_inodes =
        ⟨sector, 2, false, 0, disk_read_rec st.disk sector⟩ :: st.open_inodes) ∧
    inode_close g (inode_open (inode_open st sector) sector) (some sector) =
      ⟨⟨sector, 1, false, 0, disk_read_rec st.disk sector⟩ :: st.open_inodes,
        st.disk, st.fat⟩ ∧
    inode_close g (inode_close g (inode_open (inode_open st sector) sector)
        (some sector)) (some sector) =
      ⟨st.open_inodes,
        disk_write_rec st.disk sector (disk_read_rec st.disk sector), st.fat⟩ ∧
    (inode_close g (inode_remove (inode_close g
          (inode_open (inode_open st sector) sector) (some sector)) sector)
        (some sector)).fat.removedLog =
      st.fat.removedLog ++
        [g.s2c sector, g.s2c (disk_read_rec st.disk sector).start] := by
  have h1 : inode_open st sector =
      ⟨⟨sector, 1, false, 0, disk_read_rec st.disk sector⟩ :: st.open_inodes,
        st.disk, st.fat⟩ := by
    rw [inode_open, inode_open_scan_none sector st.open_inodes hfresh]
  have h2 : inode_open (inode_open st sector) sector =
      ⟨⟨sector, 2, false, 0, disk_read_rec st.disk sector⟩ :: st.open_inodes,
        st.disk, st.fat⟩ := by
    rw [h1, inode_open]
    simp [inode_open_scan]
  have h3 : inode_close g (inode_open (inode_open st sector) sector)
      (some sector) =
      ⟨⟨sector, 1, false, 0, disk_read_rec st.disk sector⟩ :: st.open_inodes,
        st.disk, st.fat⟩ := by
    rw [h2, inode_close]
    simp [close_scan]
  have h4 : inode_close g (inode_close g (inode_open (inode_open st sector)
      sector) (some sector)) (some sector) =
      ⟨st.open_inodes,
        disk_write_rec st.disk sector (disk_read_rec st.disk sector),
        st.fat⟩ := by
    rw [h3, inode_close]
    simp [close_scan]
  refine ⟨h1, h2, ?_, h3, h4, ?_⟩
  · intro d1
    rw [h1]
    simp only []
    rw [inode_open]
    simp [inode_open_scan]
  · rw [h3]
    rw [show inode_remove
        ⟨⟨sector, 1, false, 0, disk_read_rec st.disk sector⟩ :: st.open_inodes,
          st.disk, st.fat⟩ sector =
        ⟨⟨sector, 1, true, 0, disk_read_rec st.disk sector⟩ :: st.open_inodes,
          st.disk, st.fat⟩ from by
      rw [inode_remove]
      simp [remove_scan]]
    rw [inode_close]
    simp [close_scan, fat_remove_chain]

/-- Witness for C8 starting from the empty open-inode table. -/
theorem C8_witness :
    (∀ i ∈ ([] : List Inode), i.sector ≠ 7) ∧
    inode_open ⟨[], fun _ => Sector.raw zeros, ⟨fun _ => 0, [], []⟩⟩ 7 =
      ⟨[⟨7, 1, false, 0,
          disk_read_rec (fun _ => Sector.raw zeros) 7⟩],
        fun _ => Sector.raw zeros, ⟨fun _ => 0, [], []⟩⟩ :=
  ⟨by simp,
    (C8_open_dedups_and_counts ⟨fun c => c, fun s => s⟩
      ⟨[], fun _ => Sector.raw zeros, ⟨fun _ => 0, [], []⟩⟩ 7 (by simp)).1⟩

/-! ### C1: the growth rollback at a non-aligned original length -/

/-- C1 (code bug evidence): take a file of length 100 (its chain holds
one 512-byte unit, bytes 0–511 zero-filled) and grow it to 1200 with
exactly one unit left in the allocator.  The loop grants `k = 1` unit
(backing bytes 512–1023), then fails.  The rollback arithmetic for a
non-aligned original length sets
`length = origin + growth - growth % 512 + 512 = 1124`, yet only
`2 × 512 = 1024` bytes are backed by allocated, zero-filled units:
byte offsets 1024–1123 lie below the reported length but are unbacked,
violating the claimed (and specified, §4.3/§8) rollback contract, which
demands `length = 1024` here. -/
theorem C1_growth_rollback_unaligned_overshoot :
    (file_growth ⟨fun c => c, fun s => s⟩ ⟨fun _ => 0, [2], []⟩
        (fun _ => Sector.raw zeros) ⟨50, 1, false, 0, ⟨1, 100, INODE_MAGIC⟩⟩
        1200).ok = false ∧
    (file_growth ⟨fun c => c, fun s => s⟩ ⟨fun _ => 0, [2], []⟩
        (fun _ => Sector.raw zeros) ⟨50, 1, false, 0, ⟨1, 100, INODE_MAGIC⟩⟩
        1200).inode.data.length = 1124 ∧
    DISK_SECTOR_SIZE *
      chainLen (file_growth ⟨fun c => c, fun s => s⟩ ⟨fun _ => 0, [2], []⟩
          (fun _ => Sector.raw zeros) ⟨50, 1, false, 0, ⟨1, 100, INODE_MAGIC⟩⟩
          1200).fat 10
        ((⟨fun c => c, fun s => s⟩ : FatGeo).s2c
          (file_growth ⟨fun c => c, fun s => s⟩ ⟨fun _ => 0, [2], []⟩
              (fun _ => Sector.raw zeros) ⟨50, 1, false, 0, ⟨1, 100, INODE_MAGIC⟩⟩
              1200).inode.data.start) = 1024 ∧
    1024 < 1124 := by
  have hg : file_growth ⟨fun c => c, fun s => s⟩ ⟨fun _ => 0, [2], []⟩
      (fun _ => Sector.raw zeros) ⟨50, 1, false, 0, ⟨1, 100, INODE_MAGIC⟩⟩
      1200 =
      ⟨false, ⟨50, 1, false, 0, ⟨1, 1124, INODE_MAGIC⟩⟩,
        ⟨fun x => if x = 1 ∧ 1 ≠ 0 then 2 else if x = 2 then 0 else 0, [], []⟩,
        disk_write_raw (fun _ => Sector.raw zeros) 2 zeros⟩ := by
    rw [file_growth]
    norm_num [inode_length, byte_to_sector, chain_walk, DISK_SECTOR_SIZE,
      SECTORS_PER_CLUSTER, NO_SECTOR]
    rw [growthLoop]
    norm_num [fat_create_chain, DISK_SECTOR_SIZE]
    rw [growthLoop]
    norm_num [fat_create_chain, DISK_SECTOR_SIZE]
  rw [hg]
  refine ⟨rfl, rfl, ?_, by norm_num⟩
  norm_num [chainLen, DISK_SECTOR_SIZE]

/-! ### Chain lemmas for the creation loop -/

/-- A cluster that is neither granted nor the anchor keeps its old
`next` entry. -/
lemma chainUpd_notMem :
    ∀ (cs : List Nat) (next : Nat → Nat) (prev x : Nat),
      x ∉ cs → x ≠ prev → chainUpd next prev cs x = next x := by
  intro cs
  induction cs with
  | nil => intro next prev x _ _; rfl
  | cons c rest ih =>
      intro next prev x hx hp
      have hxc : x ≠ c := by
        intro h
        exact hx (h ▸ List.mem_cons_self c rest)
      have hxr : x ∉ rest := fun h => hx (List.mem_cons_of_mem c h)
      simp only [chainUpd]
      rw [ih _ c x hxr hxc]
      simp [hp, hxc]

/-- Inside the granted run the links go in order: the `n`-th granted
unit points at the `n+1`-st. -/
lemma chainUpd_get :
    ∀ (cs : List Nat) (next : Nat → Nat) (prev : Nat),
      cs.Nodup → 0 ∉ cs → prev ∉ cs →
      ∀ n, n + 1 < cs.length →
        chainUpd next prev cs (cs.getD n 0) = cs.getD (n + 1) 0 := by
  intro cs
  induction cs with
  | nil => intro next prev _ _ _ n hn; simp at hn
  | cons c rest ih =>
      intro next prev hnd h0 hprev n hn
      have hc0 : c ≠ 0 := by
        intro h
        exact h0 (h ▸ List.mem_cons_self c rest)
      match n with
      | 0 =>
          match rest, hn with
          | c2 :: rest2, _ =>
              simp only [chainUpd, List.getD_cons_zero, List.getD_cons_succ]
              have hcr2 : c ∉ rest2 := by
                have := hnd
                simp only [List.nodup_cons] at this
                exact fun h => this.1 (List.mem_cons_of_mem c2 h)
              have hcc2 : c ≠ c2 := by
                have := hnd
                simp only [List.nodup_cons] at this
                exact fun h => this.1 (h ▸ List.mem_cons_self c2 rest2)
              rw [chainUpd_notMem rest2 _ c2 c hcr2 hcc2]
              simp [hc0]
      | n + 1 =>
          simp only [chainUpd, List.getD_cons_succ]
          apply ih _ c
          · exact hnd.of_cons
          · exact fun h => h0 (List.mem_cons_of_mem c h)
          · have := hnd
            simp only [List.nodup_cons] at this
            exact this.1
          · simpa using hn

/-- Walking `i` follow-next steps from the head of the granted run
lands on the `i`-th granted unit. -/
lemma chain_walk_chainUpd (f : FatState) (next0 : Nat → Nat) (prev : Nat)
    (cs : List Nat) (hf : ∀ x, fat_get f x = chainUpd next0 prev cs x)
    (hnd : cs.Nodup) (h0 : 0 ∉ cs) (hprev : prev ∉ cs) :
    ∀ (i j : Nat), j + i < cs.length →
      chain_walk f i (cs.getD j 0) = cs.getD (j + i) 0 := by
  intro i
  induction i with
  | zero => intro j _; simp [chain_walk]
  | succ i ih =>
      intro j hj
      have step : chain_walk f (i + 1) (cs.getD j 0) =
          chain_walk f i (fat_get f (cs.getD j 0)) := rfl
      rw [step, hf, chainUpd_get cs next0 prev hnd h0 hprev j (by omega)]
      have e : j + (i + 1) = (j + 1) + i := by omega
      rw [e]
      exact ih (j + 1) (by omega)

/-- Closed form of a successful run of the creation loop: with
`k = len.toNat / 512 + 1` grantable units available and none of them
the failure sentinel `0`, the loop succeeds, consumes exactly the first
`k` fresh units, links them in order behind `startclst`, zero-fills
exactly their sectors, and records the first unit's base sector. -/
lemma createLoop_eq (g : FatGeo) :
    ∀ (n : Nat) (len : Int), len.toNat = n →
      ∀ (f : FatState) (d : Disk) (startclst : Nat) (first : Bool) (start : Nat),
      0 ≤ len →
      len.toNat / 512 + 1 ≤ f.fresh.length →
      0 ∉ f.fresh.take (len.toNat / 512 + 1) →
      createLoop g f d startclst first start len =
        ⟨true,
          ⟨chainUpd f.next startclst (f.fresh.take (len.toNat / 512 + 1)),
            f.fresh.drop (len.toNat / 512 + 1), f.removedLog⟩,
          fun s => if s ∈ (f.fresh.take (len.toNat / 512 + 1)).map g.c2s
            then Sector.raw zeros else d s,
          if first then g.c2s (f.fresh.getD 0 0) else start⟩ := by
  intro n
  induction n using Nat.strong_induction_on with
  | h n ih =>
    intro len hlen f d startclst first start hnn hk hfz
    obtain ⟨next0, fresh0, log0⟩ := f
    simp only [] at hk hfz ⊢
    rcases fresh0 with _ | ⟨c, rest⟩
    · simp at hk
    · have hctake : c ∈ (c :: rest).take (len.toNat / 512 + 1) := by
        rw [List.take_succ_cons]
        exact List.mem_cons_self c _
      have hc0 : c ≠ 0 := fun h => hfz (h ▸ hctake)
      have hkr : len.toNat / 512 + 1 ≤ rest.length + 1 := by
        simpa using hk
      rw [createLoop, dif_pos hnn]
      simp only [fat_create_chain]
      rw [if_neg hc0]
      by_cases hlt : len < 512
      · -- last grant: the recursive call returns immediately
        have hdiv : len.toNat / 512 = 0 := by omega
        rw [createLoop, dif_neg (by omega)]
        simp only [hdiv, List.take_succ_cons, List.take_zero, List.drop_succ_cons,
          List.drop_zero, List.map_cons, List.map_nil, List.getD_cons_zero]
        have e1 : chainUpd next0 startclst [c] =
            fun x => if x = startclst ∧ startclst ≠ 0 then c
              else if x = c then 0 else next0 x := by
          funext x
          simp [chainUpd]
        have e2 : disk_write_raw d (g.c2s c) zeros =
            fun s => if s ∈ [g.c2s c] then Sector.raw zeros else d s := by
          funext s
          simp [disk_write_raw]
        rw [e1, e2]
      · -- at least one more grant: use the induction hypothesis
        have hlen512 : (len - 512).toNat = len.toNat - 512 := by omega
        have hdiv : (len - 512).toNat / 512 + 1 = len.toNat / 512 := by omega
        have htk : (len.toNat / 512 + 1) = ((len - 512).toNat / 512 + 1) + 1 := by
          omega
        rw [ih (len - 512).toNat (by omega) (len - 512) rfl
          ⟨fun x => if x = startclst ∧ startclst ≠ 0 then c
            else if x = c then 0 else next0 x, rest, log0⟩
          (disk_write_raw d (g.c2s c) zeros) c false
          (if first then g.c2s c else start)
          (by omega)
          (by simp only []; omega)
          (by
            simp only []
            intro hmem
            apply hfz
            rw [htk, List.take_succ_cons]
            exact List.mem_cons_of_mem c hmem)]
        simp only [htk, List.take_succ_cons, List.drop_succ_cons,
          List.getD_cons_zero, List.map_cons]
        have e1 : chainUpd next0 startclst
            (c :: rest.take ((len - 512).toNat / 512 + 1)) =
            chainUpd (fun y => if y = startclst ∧ startclst ≠ 0 then c
              else if y = c then 0 else next0 y) c
              (rest.take ((len - 512).toNat / 512 + 1)) := rfl
        have e2 : (fun s =>
            if s ∈ (rest.take ((len - 512).toNat / 512 + 1)).map g.c2s
            then Sector.raw zeros else disk_write_raw d (g.c2s c) zeros s) =
            fun s => if s ∈ g.c2s c ::
                (rest.take ((len - 512).toNat / 512 + 1)).map g.c2s
              then Sector.raw zeros else d s := by
          funext s
          simp only [disk_write_raw, List.mem_cons]
          by_cases h1 : s ∈ (rest.take ((len - 512).toNat / 512 + 1)).map g.c2s
          · rw [if_pos h1, if_pos (Or.inr h1)]
          · by_cases h2 : s = g.c2s c
            · rw [if_neg h1, if_pos h2, if_pos (Or.inl h2)]
            · rw [if_neg h1, if_neg h2, if_neg (by tauto)]
        rw [e1, e2]
        simp

/-! ### C10: what a successful create allocates -/

/-- The head of a nonempty take is the head of the list. -/
lemma take_getD_zero (l : List Nat) (j : Nat) :
    (l.take (j + 1)).getD 0 0 = l.getD 0 0 := by
  cases l with
  | nil => simp
  | cons a l => simp [List.take_succ_cons]

/-- C10: a successful create consumes exactly `L / 512 + 1` allocation
units — one more than the data needs whenever `L` is a multiple of the
sector size, and one unit even for `L = 0` — zero-fills each of their
sectors (still zero-filled after the record write, which comes last and
goes to a disjoint sector), writes the record with the first unit's
base sector and length `L`, and thereby makes the translation of
`offset = L` (used by the growth engine to find the current last unit)
land on the base sector of the last granted — hence allocated —
unit. -/
theorem C10_create_allocates_floor_plus_one (g : FatGeo) (f : FatState)
    (d : Disk) (sector L : Nat)
    (hk : L / DISK_SECTOR_SIZE + 1 ≤ f.fresh.length)
    (hnd : (f.fresh.take (L / DISK_SECTOR_SIZE + 1)).Nodup)
    (h0 : 0 ∉ f.fresh.take (L / DISK_SECTOR_SIZE + 1))
    (hsc : ∀ c, g.s2c (g.c2s c) = c)
    (hsec : sector ∉ (f.fresh.take (L / DISK_SECTOR_SIZE + 1)).map g.c2s) :
    (inode_create g f d sector L).ok = true ∧
    (inode_create g f d sector L).fat.fresh =
      f.fresh.drop (L / DISK_SECTOR_SIZE + 1) ∧
    (∀ s ∈ (f.fresh.take (L / DISK_SECTOR_SIZE + 1)).map g.c2s,
      (inode_create g f d sector L).disk s = Sector.raw zeros) ∧
    (inode_create g f d sector L).disk sector =
      Sector.stored ⟨g.c2s (f.fresh.getD 0 0), L, INODE_MAGIC⟩ ∧
    byte_to_sector g (inode_create g f d sector L).fat
        ⟨sector, 1, false, 0, ⟨g.c2s (f.fresh.getD 0 0), L, INODE_MAGIC⟩⟩ L =
      g.c2s ((f.fresh.take (L / DISK_SECTOR_SIZE + 1)).getD (L / DISK_SECTOR_SIZE) 0) ∧
    (f.fresh.take (L / DISK_SECTOR_SIZE + 1)).getD (L / DISK_SECTOR_SIZE) 0 ∈
      f.fresh.take (L / DISK_SECTOR_SIZE + 1) := by
  simp only [DISK_SECTOR_SIZE] at *
  have ht : ((L : Nat) : Int).toNat = L := by omega
  have hcl := createLoop_eq g L (L : Int) ht f d 0 true 0 (by omega)
    (by rw [ht]; exact hk) (by rw [ht]; exact h0)
  rw [ht] at hcl
  rw [if_pos rfl] at hcl
  have hcr : inode_create g f d sector L =
      ⟨true,
        ⟨chainUpd f.next 0 (f.fresh.take (L / 512 + 1)),
          f.fresh.drop (L / 512 + 1), f.removedLog⟩,
        disk_write_rec
          (fun s => if s ∈ (f.fresh.take (L / 512 + 1)).map g.c2s
            then Sector.raw zeros else d s)
          sector ⟨g.c2s (f.fresh.getD 0 0), L, INODE_MAGIC⟩⟩ := by
    simp only [inode_create, hcl]
    rw [if_pos trivial]
  have hlenTake : (f.fresh.take (L / 512 + 1)).length = L / 512 + 1 := by
    rw [List.length_take]
    omega
  have hbnd : L / 512 < (f.fresh.take (L / 512 + 1)).length := by omega
  refine ⟨by rw [hcr], by rw [hcr], ?_, ?_, ?_, ?_⟩
  · intro s hs
    have hss : s ≠ sector := fun h => hsec (h ▸ hs)
    rw [hcr]
    simp only [disk_write_rec]
    rw [if_neg hss, if_pos hs]
  · rw [hcr]
    simp [disk_write_rec]
  · rw [hcr]
    rw [byte_to_sector_of_le g _ _ L (by simp [DISK_SECTOR_SIZE])]
    simp only [DISK_SECTOR_SIZE]
    have hgd0 : f.fresh.getD 0 0 = (f.fresh.take (L / 512 + 1)).getD 0 0 :=
      (take_getD_zero f.fresh (L / 512)).symm
    rw [hgd0, hsc]
    have hwalk := chain_walk_chainUpd
      ⟨chainUpd f.next 0 (f.fresh.take (L / 512 + 1)),
        f.fresh.drop (L / 512 + 1), f.removedLog⟩
      f.next 0 (f.fresh.take (L / 512 + 1)) (fun x => rfl) hnd h0 h0
      (L / 512) 0 (by omega)
    rw [hwalk, Nat.zero_add]
  · rw [List.getD_eq_getElem _ _ hbnd]
    exact List.getElem_mem _

/-- Witness for C10: create a 512-byte file with units 1 and 2 on
hand — the create succeeds and consumes exactly `512/512 + 1 = 2`
units. -/
theorem C10_witness :
    (512 / DISK_SECTOR_SIZE + 1 ≤
      (⟨fun _ => 0, [1, 2], []⟩ : FatState).fresh.length) ∧
    (inode_create ⟨fun c => c, fun s => s⟩ ⟨fun _ => 0, [1, 2], []⟩
        (fun _ => Sector.raw zeros) 50 512).ok = true ∧
    (inode_create ⟨fun c => c, fun s => s⟩ ⟨fun _ => 0, [1, 2], []⟩
        (fun _ => Sector.raw zeros) 50 512).fat.fresh =
      (⟨fun _ => 0, [1, 2], []⟩ : FatState).fresh.drop
        (512 / DISK_SECTOR_SIZE + 1) :=
  ⟨by decide,
    (C10_create_allocates_floor_plus_one ⟨fun c => c, fun s => s⟩
      ⟨fun _ => 0, [1, 2], []⟩ (fun _ => Sector.raw zeros) 50 512
      (by decide) (by decide) (by decide) (fun c => rfl) (by decide)).1,
    (C10_create_allocates_floor_plus_one ⟨fun c => c, fun s => s⟩
      ⟨fun _ => 0, [1, 2], []⟩ (fun _ => Sector.raw zeros) 50 512
      (by decide) (by decide) (by decide) (fun c => rfl) (by decide)).2.1⟩

/-! ### Write-loop frame and view lemmas -/

/-- Reading depends only on the sector's current content. -/
lemma disk_read_raw_congr (d1 d2 : Disk) (s : Nat) (h : d1 s = d2 s) :
    disk_read_raw d1 s = disk_read_raw d2 s := by
  simp only [disk_read_raw, h]

/-- Reading back the sector just written yields the written bytes. -/
lemma disk_read_raw_write_self (d : Disk) (sec : Nat) (bytes : Nat → Nat) :
    disk_read_raw (disk_write_raw d sec bytes) sec = bytes := by
  simp [disk_read_raw, disk_write_raw]

/-- A sector that is not the translation of any position in the written
range is untouched by the write loop. -/
lemma writeLoop_frame (g : FatGeo) (f : FatState) (inode : Inode)
    (buffer : List Nat) :
    ∀ size offset bytes_written d s,
      (∀ q, offset ≤ q → q < offset + min size (inode.data.length - offset) →
        s ≠ byte_to_sector g f inode q) →
      (writeLoop g f inode buffer d size offset bytes_written).2 s = d s := by
  intro size
  induction size using Nat.strong_induction_on with
  | h size ih =>
    intro offset bytes_written d s hq
    rw [writeLoop]
    by_cases hs : 0 < size
    · rw [dif_pos hs]
      by_cases hc : chunkOf inode size offset = 0
      · rw [dif_pos hc]
      · rw [dif_neg hc]
        obtain ⟨h1, h2, h3, h4⟩ := chunkOf_bounds hs hc
        rw [ih (size - chunkOf inode size offset) (by omega)
          (offset + chunkOf inode size offset)
          (bytes_written + chunkOf inode size offset) _ s ?_]
        · have hoffr : offset < offset + min size (inode.data.length - offset) := by
            have := chunkOf_split hs hc
            omega
          rw [disk_write_raw, if_neg (hq offset (by omega) hoffr)]
        · intro q hq1 hq2
          apply hq q (by omega)
          have := chunkOf_split hs hc
          omega
    · rw [dif_neg hs]

/-- What the write loop leaves at the translated position of each
written logical byte: the corresponding byte of the caller's buffer.
Distinct sectors of the file must translate to distinct device sectors
(`hinj`); positions in one sector translate identically (that is a
theorem, `byte_to_sector_congr`). -/
lemma writeLoop_view (g : FatGeo) (f : FatState) (inode : Inode)
    (buffer : List Nat)
    (hinj : ∀ p q, p ≤ inode.data.length → q ≤ inode.data.length →
      p / DISK_SECTOR_SIZE ≠ q / DISK_SECTOR_SIZE →
      byte_to_sector g f inode p ≠ byte_to_sector g f inode q) :
    ∀ size offset bytes_written d p,
      offset ≤ p → p < offset + min size (inode.data.length - offset) →
      disk_read_raw (writeLoop g f inode buffer d size offset bytes_written).2
          (byte_to_sector g f inode p) (p % DISK_SECTOR_SIZE) =
        buffer.getD (bytes_written + (p - offset)) 0 := by
  intro size
  induction size using Nat.strong_induction_on with
  | h size ih =>
    intro offset bytes_written d p hp1 hp2
    have hs : 0 < size := by
      by_contra hs
      have : size = 0 := by omega
      subst this
      simp at hp2
      omega
    have hc : chunkOf inode size offset ≠ 0 := by
      intro hc
      have := chunkOf_eq_zero hs hc
      simp [this] at hp2
      omega
    obtain ⟨h1, h2, h3, h4⟩ := chunkOf_bounds hs hc
    have hsplit := chunkOf_split hs hc
    have hpL : p ≤ inode.data.length := by omega
    rw [writeLoop, dif_pos hs, dif_neg hc]
    dsimp only
    by_cases hcur : p < offset + chunkOf inode size offset
    · -- the byte belongs to the chunk written this iteration
      have hframe : (writeLoop g f inode buffer
          (disk_write_raw d (byte_to_sector g f inode offset)
            (writeSectorContent buffer d (byte_to_sector g f inode offset)
              (offset % DISK_SECTOR_SIZE) (chunkOf inode size offset)
              bytes_written))
          (size - chunkOf inode size offset)
          (offset + chunkOf inode size offset)
          (bytes_written + chunkOf inode size offset)).2
          (byte_to_sector g f inode p) =
          disk_write_raw d (byte_to_sector g f inode offset)
            (writeSectorContent buffer d (byte_to_sector g f inode offset)
              (offset % DISK_SECTOR_SIZE) (chunkOf inode size offset)
              bytes_written) (byte_to_sector g f inode p) := by
        apply writeLoop_frame
        intro q hq1 hq2
        have hrange : 0 < min (size - chunkOf inode size offset)
            (inode.data.length - (offset + chunkOf inode size offset)) := by
          omega
        have hsl : chunkOf inode size offset =
            DISK_SECTOR_SIZE - offset % DISK_SECTOR_SIZE := by
          simp only [chunkOf, inode_length, DISK_SECTOR_SIZE] at *
          omega
        have hqL : q ≤ inode.data.length := by omega
        have hdivne : p / DISK_SECTOR_SIZE ≠ q / DISK_SECTOR_SIZE := by
          simp only [DISK_SECTOR_SIZE] at *
          omega
        exact hinj p q hpL hqL hdivne
      have hsame : byte_to_sector g f inode p = byte_to_sector g f inode offset := by
        apply byte_to_sector_congr g f inode p offset hpL (by omega)
        simp only [DISK_SECTOR_SIZE] at *
        omega
      rw [hsame] at hframe ⊢
      rw [disk_read_raw_congr _ _ _ hframe, disk_read_raw_write_self]
      rw [writeSectorContent]
      have hidx : p % DISK_SECTOR_SIZE =
          offset % DISK_SECTOR_SIZE + (p - offset) := by
        simp only [DISK_SECTOR_SIZE] at *
        omega
      by_cases hfull : offset % DISK_SECTOR_SIZE = 0 ∧
          chunkOf inode size offset = DISK_SECTOR_SIZE
      · rw [if_pos hfull]
        rw [hidx, hfull.1, Nat.zero_add]
      · rw [if_neg hfull]
        rw [if_pos (by
          constructor
          · omega
          · omega)]
        congr 1
        omega
    · -- the byte is written by a later iteration
      have := ih (size - chunkOf inode size offset) (by omega)
        (offset + chunkOf inode size offset)
        (bytes_written + chunkOf inode size offset)
        (disk_write_raw d (byte_to_sector g f inode offset)
          (writeSectorContent buffer d (byte_to_sector g f inode offset)
            (offset % DISK_SECTOR_SIZE) (chunkOf inode size offset)
            bytes_written))
        p (by omega) (by omega)
      rw [this]
      congr 1
      omega

/-! ### The translator over a freshly created chain -/

/-- Closed form of a successful `inode_create`. -/
lemma inode_create_eq (g : FatGeo) (f : FatState) (d : Disk) (sector L : Nat)
    (hk : L / 512 + 1 ≤ f.fresh.length)
    (h0 : 0 ∉ f.fresh.take (L / 512 + 1)) :
    inode_create g f d sector L =
      ⟨true,
        ⟨chainUpd f.next 0 (f.fresh.take (L / 512 + 1)),
          f.fresh.drop (L / 512 + 1), f.removedLog⟩,
        disk_write_rec
          (fun s => if s ∈ (f.fresh.take (L / 512 + 1)).map g.c2s
            then Sector.raw zeros else d s)
          sector ⟨g.c2s (f.fresh.getD 0 0), L, INODE_MAGIC⟩⟩ := by
  have ht : ((L : Nat) : Int).toNat = L := by omega
  have hcl := createLoop_eq g L (L : Int) ht f d 0 true 0 (by omega)
    (by rw [ht]; exact hk) (by rw [ht]; exact h0)
  rw [ht] at hcl
  rw [if_pos rfl] at hcl
  simp only [inode_create, hcl]
  rw [if_pos trivial]

/-- After a successful create, translating any in-bounds position lands
on the base sector of the `p / 512`-th granted unit. -/
lemma byte_to_sector_after_create (g : FatGeo) (f : FatState) (d : Disk)
    (sector L : Nat) (i : Inode)
    (hdata : i.data = ⟨g.c2s (f.fresh.getD 0 0), L, INODE_MAGIC⟩)
    (hk : L / 512 + 1 ≤ f.fresh.length)
    (hnd : (f.fresh.take (L / 512 + 1)).Nodup)
    (h0 : 0 ∉ f.fresh.take (L / 512 + 1))
    (hsc : ∀ c, g.s2c (g.c2s c) = c) :
    ∀ p, p ≤ L →
      byte_to_sector g (inode_create g f d sector L).fat i p =
        g.c2s ((f.fresh.take (L / 512 + 1)).getD (p / DISK_SECTOR_SIZE) 0) := by
  intro p hp
  have hlenTake : (f.fresh.take (L / 512 + 1)).length = L / 512 + 1 := by
    rw [List.length_take]
    omega
  rw [byte_to_sector_of_le g _ i p (by rw [hdata]; exact hp)]
  rw [inode_create_eq g f d sector L hk h0]
  rw [hdata]
  dsimp only
  simp only [DISK_SECTOR_SIZE]
  rw [hsc]
  rw [show f.fresh.getD 0 0 = (f.fresh.take (L / 512 + 1)).getD 0 0 from
    (take_getD_zero f.fresh (L / 512)).symm]
  have hwalk := chain_walk_chainUpd
    ⟨chainUpd f.next 0 (f.fresh.take (L / 512 + 1)),
      f.fresh.drop (L / 512 + 1), f.removedLog⟩
    f.next 0 (f.fresh.take (L / 512 + 1)) (fun x => rfl) hnd h0 h0
    (p / 512) 0 (by omega)
  rw [hwalk, Nat.zero_add]

/-- After a successful create, positions in distinct sectors of the
file translate to distinct device sectors (the granted units are
distinct and the address conversion is injective). -/
lemma byte_to_sector_create_inj (g : FatGeo) (f : FatState) (d : Disk)
    (sector L : Nat) (i : Inode)
    (hdata : i.data = ⟨g.c2s (f.fresh.getD 0 0), L, INODE_MAGIC⟩)
    (hk : L / 512 + 1 ≤ f.fresh.length)
    (hnd : (f.fresh.take (L / 512 + 1)).Nodup)
    (h0 : 0 ∉ f.fresh.take (L / 512 + 1))
    (hsc : ∀ c, g.s2c (g.c2s c) = c)
    (hc2s : Function.Injective g.c2s) :
    ∀ p q, p ≤ L → q ≤ L → p / DISK_SECTOR_SIZE ≠ q / DISK_SECTOR_SIZE →
      byte_to_sector g (inode_create g f d sector L).fat i p ≠
        byte_to_sector g (inode_create g f d sector L).fat i q := by
  intro p q hp hq hne heq
  rw [byte_to_sector_after_create g f d sector L i hdata hk hnd h0 hsc p hp,
    byte_to_sector_after_create g f d sector L i hdata hk hnd h0 hsc q hq] at heq
  have h2 := hc2s heq
  have hlenTake : (f.fresh.take (L / 512 + 1)).length = L / 512 + 1 := by
    rw [List.length_take]
    omega
  have hpb : p / DISK_SECTOR_SIZE < (f.fresh.take (L / 512 + 1)).length := by
    simp only [DISK_SECTOR_SIZE] at *
    omega
  have hqb : q / DISK_SECTOR_SIZE < (f.fresh.take (L / 512 + 1)).length := by
    simp only [DISK_SECTOR_SIZE] at *
    omega
  rw [List.getD_eq_getElem _ _ hpb, List.getD_eq_getElem _ _ hqb] at h2
  exact hne ((hnd.getElem_inj_iff).mp h2)

/-! ### C4: write-then-read round trip on a fresh file -/

/-- C4: create a file of length `L` (the allocator holds enough
distinct, nonzero units and the sector address conversion is a
section), open it (the in-memory inode carries the record the create
wrote), write a byte sequence `S` of length `L` at offset 0, and read
`[0, L)` back: the write reports exactly `L` bytes and the read returns
exactly `S`. -/
theorem C4_roundtrip (g : FatGeo) (f : FatState) (d : Disk) (sector L : Nat)
    (S : List Nat) (hlen : S.length = L)
    (hk : L / DISK_SECTOR_SIZE + 1 ≤ f.fresh.length)
    (hnd : (f.fresh.take (L / DISK_SECTOR_SIZE + 1)).Nodup)
    (h0 : 0 ∉ f.fresh.take (L / DISK_SECTOR_SIZE + 1))
    (hsc : ∀ c, g.s2c (g.c2s c) = c)
    (hc2s : Function.Injective g.c2s) :
    (inode_create g f d sector L).ok = true ∧
    (inode_write_at g (inode_create g f d sector L).fat
        ⟨sector, 1, false, 0,
          disk_read_rec (inode_create g f d sector L).disk sector⟩ S
        (inode_create g f d sector L).disk L 0).bytes = L ∧
    inode_read_at g
      (inode_write_at g (inode_create g f d sector L).fat
        ⟨sector, 1, false, 0,
          disk_read_rec (inode_create g f d sector L).disk sector⟩ S
        (inode_create g f d sector L).disk L 0).fat
      (inode_write_at g (inode_create g f d sector L).fat
        ⟨sector, 1, false, 0,
          disk_read_rec (inode_create g f d sector L).disk sector⟩ S
        (inode_create g f d sector L).disk L 0).inode
      (inode_write_at g (inode_create g f d sector L).fat
        ⟨sector, 1, false, 0,
          disk_read_rec (inode_create g f d sector L).disk sector⟩ S
        (inode_create g f d sector L).disk L 0).disk L 0 = S := by
  simp only [DISK_SECTOR_SIZE] at hk hnd h0
  have hceq := inode_create_eq g f d sector L hk h0
  have hok : (inode_create g f d sector L).ok = true := by rw [hceq]
  have hrec : disk_read_rec (inode_create g f d sector L).disk sector =
      ⟨g.c2s (f.fresh.getD 0 0), L, INODE_MAGIC⟩ := by
    rw [hceq]
    simp [disk_read_rec, disk_write_rec]
  rw [hrec]
  have hdata : (⟨sector, 1, false, 0,
      ⟨g.c2s (f.fresh.getD 0 0), L, INODE_MAGIC⟩⟩ : Inode).data =
      ⟨g.c2s (f.fresh.getD 0 0), L, INODE_MAGIC⟩ := rfl
  have hIlen : (⟨sector, 1, false, 0,
      ⟨g.c2s (f.fresh.getD 0 0), L, INODE_MAGIC⟩⟩ : Inode).data.length = L := rfl
  have hw : inode_write_at g (inode_create g f d sector L).fat
      ⟨sector, 1, false, 0, ⟨g.c2s (f.fresh.getD 0 0), L, INODE_MAGIC⟩⟩ S
      (inode_create g f d sector L).disk L 0 =
      ⟨(writeLoop g (inode_create g f d sector L).fat
          ⟨sector, 1, false, 0, ⟨g.c2s (f.fresh.getD 0 0), L, INODE_MAGIC⟩⟩ S
          (inode_create g f d sector L).disk L 0 0).1,
        ⟨sector, 1, false, 0, ⟨g.c2s (f.fresh.getD 0 0), L, INODE_MAGIC⟩⟩,
        (inode_create g f d sector L).fat,
        (writeLoop g (inode_create g f d sector L).fat
          ⟨sector, 1, false, 0, ⟨g.c2s (f.fresh.getD 0 0), L, INODE_MAGIC⟩⟩ S
          (inode_create g f d sector L).disk L 0 0).2⟩ := by
    rw [inode_write_at]
    rw [if_neg (by simp)]
    rw [if_neg (by simp [inode_length])]
  have hinj := byte_to_sector_create_inj g f d sector L
    ⟨sector, 1, false, 0, ⟨g.c2s (f.fresh.getD 0 0), L, INODE_MAGIC⟩⟩
    hdata hk hnd h0 hsc hc2s
  have hview : ∀ j, j < L →
      disk_read_raw (writeLoop g (inode_create g f d sector L).fat
          ⟨sector, 1, false, 0, ⟨g.c2s (f.fresh.getD 0 0), L, INODE_MAGIC⟩⟩ S
          (inode_create g f d sector L).disk L 0 0).2
        (byte_to_sector g (inode_create g f d sector L).fat
          ⟨sector, 1, false, 0, ⟨g.c2s (f.fresh.getD 0 0), L, INODE_MAGIC⟩⟩ j)
        (j % DISK_SECTOR_SIZE) = S.getD j 0 := by
    intro j hj
    have hv := writeLoop_view g (inode_create g f d sector L).fat
      ⟨sector, 1, false, 0, ⟨g.c2s (f.fresh.getD 0 0), L, INODE_MAGIC⟩⟩ S
      (by
        intro p q hp hq hpq
        exact hinj p q (by rw [hIlen] at hp; exact hp)
          (by rw [hIlen] at hq; exact hq) hpq)
      L 0 0 (inode_create g f d sector L).disk j (by omega)
      (by rw [hIlen]; omega)
    simpa using hv
  refine ⟨hok, ?_, ?_⟩
  · rw [hw]
    dsimp only
    rw [writeLoop_bytes]
    rw [hIlen]
    omega
  · rw [hw]
    dsimp only
    rw [inode_read_at, readLoop_eq_map]
    rw [hIlen]
    have hmin : min L (L - 0) = L := by omega
    rw [hmin]
    apply List.ext_getElem
    · simp [hlen]
    · intro n h1 h2
      simp only [List.getElem_map, List.getElem_range]
      have hn : n < L := by simpa using h1
      rw [Nat.zero_add]
      rw [hview n hn]
      rw [List.getD_eq_getElem _ _ (by omega)]

/-- Witness for C4: a 4-byte round trip through a freshly created
4-byte file. -/
theorem C4_witness :
    ([9, 8, 7, 6] : List Nat).length = 4 ∧
    (inode_create ⟨fun c => c, fun s => s⟩ ⟨fun _ => 0, [1], []⟩
      (fun _ => Sector.raw zeros) 50 4).ok = true ∧
    (inode_write_at ⟨fun c => c, fun s => s⟩
        (inode_create ⟨fun c => c, fun s => s⟩ ⟨fun _ => 0, [1], []⟩
          (fun _ => Sector.raw zeros) 50 4).fat
        ⟨50, 1, false, 0,
          disk_read_rec (inode_create ⟨fun c => c, fun s => s⟩
            ⟨fun _ => 0, [1], []⟩ (fun _ => Sector.raw zeros) 50 4).disk 50⟩
        [9, 8, 7, 6]
        (inode_create ⟨fun c => c, fun s => s⟩ ⟨fun _ => 0, [1], []⟩
          (fun _ => Sector.raw zeros) 50 4).disk 4 0).bytes = 4 :=
  ⟨rfl,
    (C4_roundtrip ⟨fun c => c, fun s => s⟩ ⟨fun _ => 0, [1], []⟩
      (fun _ => Sector.raw zeros) 50 4 [9, 8, 7, 6] rfl (by decide) (by decide)
      (by decide) (fun c => rfl) (fun a b h => h)).1,
    (C4_roundtrip ⟨fun c => c, fun s => s⟩ ⟨fun _ => 0, [1], []⟩
      (fun _ => Sector.raw zeros) 50 4 [9, 8, 7, 6] rfl (by decide) (by decide)
      (by decide) (fun c => rfl) (fun a b h => h)).2.1⟩

end InodeFS
